import Mathlib

/-!
Verification of the update-news / static-server repository.

The updater script (update-news.js) fetches news articles, renders them as
HTML cards, splices the cards into fixed sections of `index.html` by regex
replacement, and refreshes a "Last Updated" line.  The server (server.js)
serves files from a base directory with a three-entry content-type table.

Strings are modelled as `List Char` (`Str`).  JavaScript string values are
sequences of UTF-16 units; all the documents and literals involved here are
plain text, for which one `Char` per unit is a faithful rendering.  The
pieces of platform behaviour the scripts call into (locale date formatting,
`JSON.parse`, the network) are abstracted as explicit parameters, so every
definition below is executable.
-/

abbrev Str := List Char

/-- Character class `\s` of a JavaScript regular expression (WhiteSpace ∪ LineTerminator). -/
def jsWhitespace (c : Char) : Bool :=
  c = ' ' || c = '\t' || c = '\n' || c = '\r' ||
  c = Char.ofNat 11 || c = Char.ofNat 12 ||
  c = Char.ofNat 0xa0 || c = Char.ofNat 0x1680 ||
  (0x2000 ≤ c.toNat && c.toNat ≤ 0x200a) ||
  c = Char.ofNat 0x2028 || c = Char.ofNat 0x2029 ||
  c = Char.ofNat 0x202f || c = Char.ofNat 0x205f ||
  c = Char.ofNat 0x3000 || c = Char.ofNat 0xfeff

/-- Match a literal at the head of `s`; on success return the remainder. -/
def matchLit : Str → Str → Option Str
  | [], s => some s
  | _ :: _, [] => none
  | l :: ls, c :: cs => if l = c then matchLit ls cs else none

/-- Does `needle` occur as a contiguous substring of the second argument? -/
def isSubstr (needle : Str) : Str → Bool
  | [] => needle.isEmpty
  | c :: cs => (matchLit needle (c :: cs)).isSome || isSubstr needle cs

/-- First occurrence of the literal `lit`: `some (before, after)` splits the
input as `before ++ lit ++ after` at the leftmost occurrence. -/
def findLit (lit : Str) : Str → Option (Str × Str)
  | [] =>
    match matchLit lit [] with
    | some r => some ([], r)
    | none => none
  | c :: cs =>
    match matchLit lit (c :: cs) with
    | some r => some ([], r)
    | none => (findLit lit cs).map (fun p => (c :: p.1, p.2))

/-- The literal `</div>`. -/
def divClose : Str := "</div>".data

/-- The literal `<div class="card-grid">`. -/
def cardGridLit : Str := "<div class=\"card-grid\">".data

/-- The literal head of the section-open pattern:
`<div id="` ++ id ++ `" class="section`. -/
def secOpenLit (id : Str) : Str :=
  "<div id=\"".data ++ id ++ "\" class=\"section".data

/-- The character class `[^"]`. -/
def notQuote (c : Char) : Bool := c ≠ '"'

/-- Match `<div id="ID" class="section[^"]*">` at the head of `s`
(the greedy `[^"]*` run must stop at a `"` followed immediately by `>`;
backtracking cannot stop the run earlier, because every character inside
the run is not a `"`).  Returns the matched text and the remainder. -/
def matchOpenStart (id : Str) (s : Str) : Option (Str × Str) :=
  match matchLit (secOpenLit id) s with
  | none => none
  | some s1 =>
    match matchLit ['"', '>'] (s1.dropWhile notQuote) with
    | none => none
    | some s2 =>
      some (secOpenLit id ++ s1.takeWhile notQuote ++ ['"', '>'], s2)

/-- Match `</div>\s*</div>\s*</div>` at the head of `s`.  The greedy `\s*`
cannot give back characters (no whitespace character can begin `</div>`),
so maximal-munch is exact.  Returns the matched text and the remainder. -/
def matchTriple (s : Str) : Option (Str × Str) :=
  match matchLit divClose s with
  | none => none
  | some s1 =>
    match matchLit divClose (s1.dropWhile jsWhitespace) with
    | none => none
    | some s2 =>
      match matchLit divClose (s2.dropWhile jsWhitespace) with
      | none => none
      | some s3 =>
        some (divClose ++ s1.takeWhile jsWhitespace ++ divClose ++
              s2.takeWhile jsWhitespace ++ divClose, s3)

/-- Leftmost position at which `matchTriple` succeeds:
`some (before, matched, after)`. -/
def findTriple : Str → Option (Str × Str × Str)
  | [] => none
  | c :: cs =>
    match matchTriple (c :: cs) with
    | some (t, r) => some ([], t, r)
    | none => (findTriple cs).map (fun p => (c :: p.1, p.2.1, p.2.2))

/-- Attempt the whole section regex
`(<div id="ID" class="section[^"]*">.*?<div class="card-grid">)(.*?)(</div>\s*</div>\s*</div>)`
(dot-matches-all) at the head of `s`, returning the three groups and the
remainder.  The two lazy `.*?` runs take the leftmost viable stop; for this
pattern that is exactly the first occurrence of the following literal
(respectively the first position where the closing triple matches), since
availability of the rest of the pattern is antitone in the stop position. -/
def matchSectionAt (id : Str) (s : Str) : Option (Str × Str × Str × Str) :=
  match matchOpenStart id s with
  | none => none
  | some (a, s1) =>
    match findLit cardGridLit s1 with
    | none => none
    | some (b, s2) =>
      match findTriple s2 with
      | none => none
      | some (m, t, r) => some (a ++ b ++ cardGridLit, m, t, r)

/-- Groups of the leftmost match of the section regex inside a document. -/
structure SecMatch where
  pre : Str
  opn : Str
  mid : Str
  cls : Str
  post : Str
deriving DecidableEq, Repr

/-- Leftmost match of the section regex (JavaScript `String.replace` with a
non-global regex replaces exactly the leftmost match). -/
def findSection (id : Str) : Str → Option SecMatch
  | [] => none
  | c :: cs =>
    match matchSectionAt id (c :: cs) with
    | some (o, m, t, r) => some ⟨[], o, m, t, r⟩
    | none => (findSection id cs).map (fun p => ⟨c :: p.pre, p.opn, p.mid, p.cls, p.post⟩)

/-- The string `'\n'` prepended to the new cards by the replacer. -/
def nlPad : Str := ['\n']

/-- The string `'\n            '` (a newline and twelve spaces) appended
after the new cards by the replacer. -/
def closePad : Str := '\n' :: List.replicate 12 ' '

/-- Function `replaceSection(html, sectionId, newCards)` from update-news.js:
replace the leftmost match of the section regex by
`open + '\n' + newCards + '\n            ' + close`; if the regex does not
match, `String.replace` returns the input unchanged. -/
def replaceSection (html id cards : Str) : Str :=
  match findSection id html with
  | none => html
  | some r => r.pre ++ r.opn ++ nlPad ++ cards ++ closePad ++ r.cls ++ r.post

/-- JavaScript `x || y` on an optional string value: `undefined`, `null`
and the empty string are falsy. -/
def jsOr (x : Option Str) (y : Str) : Str :=
  match x with
  | none => y
  | some s => if s = [] then y else s

/-- The global replacement `.replace(/"/g, '&quot;')`: every `"` becomes `&quot;`. -/
def escQuot : Str → Str
  | [] => []
  | c :: cs => if c = '"' then "&quot;".data ++ escQuot cs else c :: escQuot cs

/-- An article of the provider response, as consumed by the script:
`{title, description, content, publishedAt, source.name, url}`.  Fields a
response may omit are optional. -/
structure Article where
  title : Option Str
  description : Option Str
  content : Option Str
  publishedAt : Option Str
  sourceName : Option Str
  url : Option Str
deriving DecidableEq, Repr

/-- Local `const title = (a.title || '').replace(/"/g, '&quot;').slice(0, 80)`. -/
def cardTitle (a : Article) : Str := (escQuot (jsOr a.title [])).take 80

/-- Local `const desc = (a.description || a.content || '내용 없음')
.replace(/"/g, '&quot;').slice(0, 200)`. -/
def cardDesc (a : Article) : Str :=
  (escQuot (jsOr a.description (jsOr a.content "내용 없음".data))).take 200

/-- Title field of the spec's data-model wording, which truncates to 80
characters first and escapes the double quotes of the truncated text. -/
def specTitleField (a : Article) : Str := escQuot ((jsOr a.title []).take 80)

/-- Card template, segment before the emoji. -/
def cardSeg0 : Str :=
  ("\n                <div class=\"card fade-in\">\n" ++
   "                    <div class=\"card-image\">").data

/-- Card template, segment between the emoji and the date. -/
def cardSeg1 : Str :=
  ("</div>\n                    <div class=\"card-content\">\n" ++
   "                        <div class=\"card-meta\">").data

/-- Card template, the ` · ` separator between date and source. -/
def cardSegDot : Str := " · ".data

/-- Card template, segment between the source and the title. -/
def cardSeg2 : Str :=
  ("</div>\n                        <h3 class=\"card-title\">").data

/-- Card template, segment between the title and the description. -/
def cardSeg3 : Str :=
  ("</h3>\n                        <p class=\"card-summary\">").data

/-- Card template, segment between the description and the url. -/
def cardSeg4 : Str :=
  ("</p>\n                        <div class=\"card-footer\">\n" ++
   "                            <span class=\"card-tag\">Latest News</span>\n" ++
   "                            <a href=\"").data

/-- Card template, segment after the url. -/
def cardSeg5 : Str :=
  ("\" class=\"read-more\" target=\"_blank\">Read More</a>\n" ++
   "                        </div>\n" ++
   "                    </div>\n" ++
   "                </div>").data

/-- One rendered card.  `fmt` abstracts `formatDate`, i.e. the platform's
`new Date(dateStr).toLocaleDateString('en-US', …)` applied to the article's
`publishedAt` value (`none` for an absent field). -/
def buildCard (fmt : Option Str → Str) (emoji : Str) (a : Article) : Str :=
  cardSeg0 ++ emoji ++ cardSeg1 ++ fmt a.publishedAt ++ cardSegDot ++
  jsOr a.sourceName "News".data ++ cardSeg2 ++ cardTitle a ++ cardSeg3 ++
  cardDesc a ++ cardSeg4 ++ jsOr a.url "#".data ++ cardSeg5

/-- Function `buildCards(articles, emoji)`: empty string for an empty list, else the
cards joined with `'\n'`. -/
def buildCards (fmt : Option Str → Str) (articles : List Article) (emoji : Str) : Str :=
  if articles = [] then []
  else ((articles.map (buildCard fmt emoji)).intersperse ['\n']).flatten

/-- Outcome of the `fetchNews` promise. -/
inductive FetchResult where
  | resolved : List Article → FetchResult
  | rejected : FetchResult
deriving DecidableEq, Repr

/-- The parsed provider response `{status, message, articles}`. -/
structure NewsResponse where
  respStatus : Str
  message : Option Str
  articles : Option (List Article)
deriving DecidableEq, Repr

/-- Response-processing of `fetchNews` (lines 29–62 of update-news.js).
`apiKey` is `NEWS_API_KEY` (empty means unset: the script resolves `[]`
without fetching).  `parsed` is the outcome of `JSON.parse` on the response
body: `none` when the body is not parseable, in which case the exception is
passed to `reject`.  With a parsed body, status `ok` resolves
`json.articles || []` and any other status logs and resolves `[]`. -/
def fetchNewsOutcome (apiKey : Str) (parsed : Option NewsResponse) : FetchResult :=
  if apiKey = [] then .resolved []
  else
    match parsed with
    | none => .rejected
    | some j =>
      if j.respStatus = "ok".data then .resolved (j.articles.getD [])
      else .resolved []

/-- The `URLSearchParams` built by `fetchNews` for the request. -/
def requestParams (query fromDate apiKey : Str) : List (Str × Str) :=
  [("q".data, query), ("from".data, fromDate),
   ("sortBy".data, "publishedAt".data), ("language".data, "en".data),
   ("apiKey".data, apiKey), ("pageSize".data, "5".data)]

/-- The join `Promise.all` on the two fetches: `some` of both article lists when both
resolve, `none` (rejection, caught by `main`'s try/catch) otherwise. -/
def promiseAll2 (a b : FetchResult) : Option (List Article × List Article) :=
  match a, b with
  | .resolved x, .resolved y => some (x, y)
  | _, _ => none

/-- The label `Last Updated: `. -/
def updLabel : Str := "Last Updated: ".data

/-- The character class `[^<]`. -/
def notLt (c : Char) : Bool := c ≠ '<'

/-- Attempt `Last Updated: [^<]+` at the head of `s`: the label literal,
then a maximal nonempty run of non-`<` characters (greedy, and nothing
follows in the pattern, so maximal-munch is exact).  Returns the run and
the remainder. -/
def matchUpdAt (s : Str) : Option (Str × Str) :=
  match matchLit updLabel s with
  | none => none
  | some s1 =>
    if s1.takeWhile notLt = [] then none
    else some (s1.takeWhile notLt, s1.dropWhile notLt)

/-- Leftmost match of `Last Updated: [^<]+`: `some (before, run, after)`. -/
def findUpd : Str → Option (Str × Str × Str)
  | [] => none
  | c :: cs =>
    match matchUpdAt (c :: cs) with
    | some (run, rest) => some ([], run, rest)
    | none => (findUpd cs).map (fun p => (c :: p.1, p.2.1, p.2.2))

/-- Function `updateLastModified(html)` from update-news.js, with the formatted
current date (`now.toLocaleDateString('en-US', …)`, a "Month D, YYYY"
string, which contains no `$`) passed in as `today`:
`html.replace(/Last Updated: [^<]+/, 'Last Updated: ' + today)`. -/
def updateLastModified (today html : Str) : Str :=
  match findUpd html with
  | none => html
  | some (pre, _run, rest) => pre ++ updLabel ++ today ++ rest

/-- The `try` body of `main` after the two fetches are joined (lines
140–172 of update-news.js): on a rejection the `catch` logs and nothing is
written, else each section whose fetch returned articles is replaced, the
timestamp is refreshed, and the result is written back.  Returns the HTML
written to disk, or `none` when the run aborts without writing. -/
def mainRun (fmt : Option Str → Str) (today : Str) (us china : FetchResult)
    (html : Str) : Option Str :=
  match promiseAll2 us china with
  | none => none
  | some (usArts, chinaArts) =>
    let h1 := if usArts = [] then html
      else replaceSection html "us".data (buildCards fmt usArts "🤖".data)
    let h2 := if chinaArts = [] then h1
      else replaceSection h1 "china".data (buildCards fmt chinaArts "🔬".data)
    some (updateLastModified today h2)

/-- Content of `index.html` on disk after a run of `main` that started with
`html` on disk: the written document, or the untouched original when the
run aborted before `writeFileSync`. -/
def diskAfter (fmt : Option Str → Str) (today : Str) (us china : FetchResult)
    (html : Str) : Str :=
  (mainRun fmt today us china html).getD html

/-- A response of the static file server. -/
structure Resp where
  respStatus : Nat
  contentType : Str
  body : Str
deriving DecidableEq, Repr

/-- The fixed 404 body of server.js. -/
def fallbackBody : Str := "<h1>404 - 파일을 찾을 수 없습니다</h1>".data

/-- Content type `text/html; charset=utf-8`. -/
def htmlCT : Str := "text/html; charset=utf-8".data

/-- Content type `text/css; charset=utf-8`. -/
def cssCT : Str := "text/css; charset=utf-8".data

/-- Content type `application/javascript; charset=utf-8`. -/
def jsCT : Str := "application/javascript; charset=utf-8".data

/-- Model of `path.extname`: the substring of the last path segment from its last
`.` to the end; empty when the segment has no `.` or only a leading one. -/
def extname (p : Str) : Str :=
  match (p.reverse.takeWhile (fun c => c ≠ '/')).dropWhile (fun c => c ≠ '.') with
  | [] => []
  | [_] => []
  | _ :: _ :: _ =>
    '.' :: ((p.reverse.takeWhile (fun c => c ≠ '/')).takeWhile (fun c => c ≠ '.')).reverse

/-- The request handler of server.js.  `fsys` abstracts `fs.readFile`
relative to the filesystem root (`none` is a read error of any cause),
`dir` is `__dirname`; `path.join(dir, fp)` is plain concatenation for the
rooted, already-normalized paths this handler produces. -/
def handleRequest (fsys : Str → Option Str) (dir url : Str) : Resp :=
  let fp := if url = "/".data then "/index.html".data else url
  let full := dir ++ fp
  match fsys full with
  | none => ⟨404, htmlCT, fallbackBody⟩
  | some d =>
    let ext := extname full
    ⟨200, if ext = ".css".data then cssCT
          else if ext = ".js".data then jsCT else htmlCT, d⟩


/-- A minimal document containing the `us` section, used in concrete checks. -/
def docC1 : Str :=
  "<div id=\"us\" class=\"section\"><div class=\"card-grid\"></div></div></div>".data

/-- Card content consisting of a bare closing triple, used in concrete checks. -/
def cardsC1 : Str := "</div></div></div>".data

/-- A document with text before and after its `us` section. -/
def docC9 : Str :=
  "AB<div id=\"us\" class=\"section\"><div class=\"card-grid\">M</div></div></div>Z".data

/-- The leftmost section match of `docC9`. -/
def smC9 : SecMatch :=
  ⟨"AB".data,
   "<div id=\"us\" class=\"section\"><div class=\"card-grid\">".data,
   "M".data, "</div></div></div>".data, "Z".data⟩

/-- An article whose title is one double quote followed by 81 letters. -/
def artC3 : Article :=
  ⟨some ('"' :: List.replicate 81 'a'), none, none, none, none, none⟩

/-- An article with every optional field absent. -/
def blankArticle : Article := ⟨none, none, none, none, none, none⟩

/-- A provider response reporting a non-success status. -/
def respBad : NewsResponse := ⟨"error".data, some "rateLimited".data, none⟩

/-- A provider response with status ok and six articles. -/
def respC6 : NewsResponse :=
  ⟨"ok".data, none, some (List.replicate 6 blankArticle)⟩

/-- A provider response with status ok and two articles. -/
def respC6w : NewsResponse :=
  ⟨"ok".data, none, some (List.replicate 2 blankArticle)⟩

/-- A little filesystem for concrete checks of the static server. -/
def fsC8 (p : Str) : Option Str :=
  if p = "/index.html".data then some "IDX".data
  else if p = "/styles.css".data then some "CSS".data
  else none

/-- Prefix of `cardSeg1` up to the `card-meta` opening tag. -/
def seg1head : Str :=
  ("</div>\n                    <div class=\"card-content\">\n" ++
   "                        ").data

/-- Suffix of `cardSeg2` after its leading `</div>`. -/
def seg2tail : Str :=
  "\n                        <h3 class=\"card-title\">".data

/-- Prefix of `cardSeg2` up to the `card-title` opening tag. -/
def seg2head : Str := "</div>\n                        ".data

/-- Suffix of `cardSeg3` after its leading `</h3>`. -/
def seg3tail : Str :=
  "\n                        <p class=\"card-summary\">".data

/-- Prefix of `cardSeg4` up to the `<a href="` literal. -/
def seg4head : Str :=
  ("</p>\n                        <div class=\"card-footer\">\n" ++
   "                            <span class=\"card-tag\">Latest News</span>\n" ++
   "                            ").data

/-- Suffix of `cardSeg5` after the closing of the link. -/
def seg5tail : Str :=
  ("\n                        </div>\n" ++
   "                    </div>\n" ++
   "                </div>").data

/-! ### Basic facts about the string machinery -/

theorem matchLit_some_iff {lit s r : Str} :
    matchLit lit s = some r ↔ s = lit ++ r := by
  induction lit generalizing s with
  | nil => simp [matchLit, eq_comm]
  | cons l ls ih =>
    cases s with
    | nil => simp [matchLit]
    | cons c cs =>
      by_cases hcl : l = c
      · subst hcl
        simp [matchLit, ih]
      · simp only [matchLit, if_neg hcl, List.cons_append]
        constructor
        · intro h; cases h
        · intro h
          injection h with h1 _
          exact absurd h1.symm hcl

theorem matchLit_self (lit r : Str) : matchLit lit (lit ++ r) = some r :=
  matchLit_some_iff.mpr rfl

theorem matchLit_append_left {lit u : Str} (x : Str) (h : lit.length ≤ u.length) :
    matchLit lit (u ++ x) = (matchLit lit u).map (fun r => r ++ x) := by
  induction lit generalizing u with
  | nil => simp [matchLit]
  | cons l ls ih =>
    cases u with
    | nil => simp at h
    | cons c cs =>
      simp only [List.cons_append, matchLit]
      by_cases hcl : l = c
      · subst hcl
        simp only [if_pos rfl]
        exact ih (Nat.le_of_succ_le_succ h)
      · simp [if_neg hcl]

theorem isSubstr_iff {n h : Str} : isSubstr n h = true ↔ ∃ u v, h = u ++ n ++ v := by
  induction h with
  | nil =>
    simp only [isSubstr, List.isEmpty_iff]
    constructor
    · intro hn; exact ⟨[], [], by simp [hn]⟩
    · rintro ⟨u, v, huv⟩
      rcases List.append_eq_nil.mp (List.append_eq_nil.mp huv.symm).1 with ⟨-, h2⟩
      exact h2
  | cons c cs ih =>
    simp only [isSubstr, Bool.or_eq_true, Option.isSome_iff_exists, ih]
    constructor
    · rintro (⟨r, hr⟩ | ⟨u, v, huv⟩)
      · exact ⟨[], r, by simpa using matchLit_some_iff.mp hr⟩
      · exact ⟨c :: u, v, by simp [huv]⟩
    · rintro ⟨u, v, huv⟩
      cases u with
      | nil => exact Or.inl ⟨v, matchLit_some_iff.mpr (by simpa using huv)⟩
      | cons b bs =>
        refine Or.inr ⟨bs, v, ?_⟩
        rw [List.cons_append, List.cons_append] at huv
        injection huv with _ h2

theorem takeWhile_append_stop {p : Char → Bool} {u : Str} (v : Str)
    (h : u.dropWhile p ≠ []) :
    (u ++ v).takeWhile p = u.takeWhile p ∧
    (u ++ v).dropWhile p = u.dropWhile p ++ v := by
  induction u with
  | nil => simp [List.dropWhile] at h
  | cons c cs ih =>
    by_cases hc : p c
    · have h' : cs.dropWhile p ≠ [] := by
        simpa [List.dropWhile, hc] using h
      have := ih h'
      simp [List.takeWhile, List.dropWhile, hc, this.1, this.2]
    · simp [List.takeWhile, List.dropWhile, hc]

theorem takeWhile_append_all {p : Char → Bool} {u : Str} (v : Str)
    (h : ∀ c ∈ u, p c) :
    (u ++ v).takeWhile p = u ++ v.takeWhile p ∧
    (u ++ v).dropWhile p = v.dropWhile p := by
  induction u with
  | nil => simp
  | cons c cs ih =>
    have hc : p c := h c (by simp)
    have := ih (fun d hd => h d (by simp [hd]))
    simp [List.takeWhile, List.dropWhile, hc, this.1, this.2]

theorem dropWhile_head_false {p : Char → Bool} {l t : Str} {c : Char}
    (h : l.dropWhile p = c :: t) : p c = false := by
  induction l with
  | nil => simp [List.dropWhile] at h
  | cons b bs ih =>
    rw [List.dropWhile_cons] at h
    by_cases hb : p b
    · rw [if_pos hb] at h
      exact ih h
    · rw [if_neg hb] at h
      injection h with h1 _
      subst h1
      simpa using hb

theorem takeWhile_all {p : Char → Bool} (l : Str) : ∀ c ∈ l.takeWhile p, p c := by
  induction l with
  | nil => simp
  | cons b bs ih =>
    by_cases hb : p b
    · intro c hc
      rw [List.takeWhile_cons, if_pos hb] at hc
      rcases List.mem_cons.mp hc with rfl | hc
      · exact hb
      · exact ih c hc
    · intro c hc
      rw [List.takeWhile_cons, if_neg hb] at hc
      simp at hc

theorem append_split {a b c d : Str} (h : a ++ b = c ++ d) (hl : c.length ≤ a.length) :
    ∃ w, a = c ++ w ∧ d = w ++ b := by
  refine ⟨a.drop c.length, ?_, ?_⟩
  · conv_lhs => rw [← List.take_append_drop c.length a]
    congr 1
    have := congrArg (List.take c.length) h
    rwa [List.take_append_of_le_length hl, List.take_left] at this
  · have := congrArg (List.drop c.length) h
    rw [List.drop_append_of_le_length hl, List.drop_left] at this
    exact this.symm

/-! ### The open-pattern matcher -/

theorem matchOpenStart_spec {id s a s1 : Str}
    (h : matchOpenStart id s = some (a, s1)) :
    ∃ run, a = secOpenLit id ++ run ++ ['"', '>'] ∧
      s = secOpenLit id ++ (run ++ '"' :: '>' :: s1) ∧
      ∀ ch ∈ run, notQuote ch = true := by
  cases hm : matchLit (secOpenLit id) s with
  | none =>
    simp only [matchOpenStart, hm] at h
    exact Option.noConfusion h
  | some t =>
    cases hq : matchLit ['"', '>'] (t.dropWhile notQuote) with
    | none =>
      simp only [matchOpenStart, hm, hq] at h
      exact Option.noConfusion h
    | some s2 =>
      simp only [matchOpenStart, hm, hq, Option.some.injEq, Prod.mk.injEq] at h
      obtain ⟨ha, hs1⟩ := h
      subst hs1
      refine ⟨t.takeWhile notQuote, ha.symm, ?_, takeWhile_all t⟩
      have hst : s = secOpenLit id ++ t := matchLit_some_iff.mp hm
      have htd : t.dropWhile notQuote = '"' :: '>' :: s2 := by
        simpa using matchLit_some_iff.mp hq
      rw [hst]
      congr 1
      conv_lhs => rw [← List.takeWhile_append_dropWhile notQuote t]
      rw [htd]

theorem matchOpenStart_canon (id run z : Str)
    (hrun : ∀ ch ∈ run, notQuote ch = true) :
    matchOpenStart id (secOpenLit id ++ (run ++ '"' :: '>' :: z)) =
      some (secOpenLit id ++ run ++ ['"', '>'], z) := by
  have hsplit := takeWhile_append_all (p := notQuote) ('"' :: '>' :: z) hrun
  have hdw : ('"' :: '>' :: z).dropWhile notQuote = '"' :: '>' :: z := by
    rw [List.dropWhile_cons, if_neg (by simp [notQuote])]
  have htw : ('"' :: '>' :: z).takeWhile notQuote = [] := by
    rw [List.takeWhile_cons, if_neg (by simp [notQuote])]
  have h2 : matchLit ['"', '>'] ('"' :: '>' :: z) = some z := matchLit_self ['"', '>'] z
  simp only [matchOpenStart, matchLit_self, hsplit.2, hsplit.1, hdw, htw, h2,
    List.append_nil]

theorem matchOpenStart_append {id u : Str} (x : Str)
    (hlen : (secOpenLit id).length ≤ u.length)
    (hq : 2 ≤ ((u.drop (secOpenLit id).length).dropWhile notQuote).length) :
    matchOpenStart id (u ++ x) =
      (matchOpenStart id u).map (fun p => (p.1, p.2 ++ x)) := by
  cases hm : matchLit (secOpenLit id) u with
  | none =>
    have hmx : matchLit (secOpenLit id) (u ++ x) = none := by
      rw [matchLit_append_left x hlen, hm]; rfl
    simp only [matchOpenStart, hm, hmx, Option.map_none']
  | some t =>
    have hmx : matchLit (secOpenLit id) (u ++ x) = some (t ++ x) := by
      rw [matchLit_append_left x hlen, hm]; rfl
    have ht : u.drop (secOpenLit id).length = t := by
      rw [matchLit_some_iff.mp hm, List.drop_left]
    rw [ht] at hq
    obtain ⟨q1, q2, d, hd⟩ :
        ∃ q1 q2 d, t.dropWhile notQuote = q1 :: q2 :: d := by
      rcases hdd : t.dropWhile notQuote with _ | ⟨a1, _ | ⟨a2, dd⟩⟩ <;>
        rw [hdd] at hq
      · simp at hq
      · simp at hq
      · exact ⟨a1, a2, dd, rfl⟩
    have hstop := takeWhile_append_stop (p := notQuote) (u := t) x (by rw [hd]; simp)
    cases hqq : matchLit ['"', '>'] (t.dropWhile notQuote) with
    | none =>
      have hqlx : matchLit ['"', '>'] ((t ++ x).dropWhile notQuote) = none := by
        rw [hstop.2, hd, matchLit_append_left x (by simp), ← hd, hqq]; rfl
      simp only [matchOpenStart, hm, hmx, hqlx, hqq, Option.map_none']
    | some w =>
      have hqlx : matchLit ['"', '>'] ((t ++ x).dropWhile notQuote) = some (w ++ x) := by
        rw [hstop.2, hd, matchLit_append_left x (by simp), ← hd, hqq]; rfl
      simp only [matchOpenStart, hm, hmx, hqlx, hqq, Option.map_some', hstop.1]

/-! ### The triple-close matcher and the leftmost-occurrence scanners -/

theorem matchTriple_spec {s t r : Str} (h : matchTriple s = some (t, r)) :
    s = t ++ r := by
  cases h1 : matchLit divClose s with
  | none => simp only [matchTriple, h1] at h; exact Option.noConfusion h
  | some s1 =>
    cases h2 : matchLit divClose (s1.dropWhile jsWhitespace) with
    | none => simp only [matchTriple, h1, h2] at h; exact Option.noConfusion h
    | some s2 =>
      cases h3 : matchLit divClose (s2.dropWhile jsWhitespace) with
      | none =>
        simp only [matchTriple, h1, h2, h3] at h
        exact Option.noConfusion h
      | some s3 =>
        simp only [matchTriple, h1, h2, h3, Option.some.injEq, Prod.mk.injEq] at h
        obtain ⟨ht, hr⟩ := h
        subst hr
        have e1 : s = divClose ++ s1 := matchLit_some_iff.mp h1
        have e2 : s1.dropWhile jsWhitespace = divClose ++ s2 := matchLit_some_iff.mp h2
        have e3 : s2.dropWhile jsWhitespace = divClose ++ s3 := matchLit_some_iff.mp h3
        rw [← ht]
        rw [e1]
        conv_lhs => rw [← List.takeWhile_append_dropWhile jsWhitespace s1]
        rw [e2]
        conv_lhs => rw [← List.takeWhile_append_dropWhile jsWhitespace s2]
        rw [e3]
        simp [List.append_assoc]

theorem matchTriple_none_head {s : Str} (h : matchLit divClose s = none) :
    matchTriple s = none := by
  simp only [matchTriple, h]

theorem matchTriple_nil : matchTriple [] = none := by
  apply matchTriple_none_head
  rfl

theorem findLit_head {lit s r : Str} (h : matchLit lit s = some r) :
    findLit lit s = some ([], r) := by
  cases s with
  | nil => simp only [findLit, h]
  | cons c cs => simp only [findLit, h]

theorem findLit_spec {lit s b r : Str} (h : findLit lit s = some (b, r)) :
    s = b ++ lit ++ r ∧ ∀ i < b.length, matchLit lit (s.drop i) = none := by
  induction s generalizing b r with
  | nil =>
    cases hm : matchLit lit [] with
    | none => simp only [findLit, hm] at h; exact Option.noConfusion h
    | some w =>
      simp only [findLit, hm, Option.some.injEq, Prod.mk.injEq] at h
      obtain ⟨hb, hr⟩ := h
      subst hb; subst hr
      refine ⟨by simpa using matchLit_some_iff.mp hm, ?_⟩
      intro i hi; simp at hi
  | cons c cs ih =>
    cases hm : matchLit lit (c :: cs) with
    | some w =>
      simp only [findLit, hm, Option.some.injEq, Prod.mk.injEq] at h
      obtain ⟨hb, hr⟩ := h
      subst hb; subst hr
      refine ⟨by simpa using matchLit_some_iff.mp hm, ?_⟩
      intro i hi; simp at hi
    | none =>
      simp only [findLit, hm] at h
      cases hF : findLit lit cs with
      | none => rw [hF] at h; exact Option.noConfusion h
      | some p =>
        rw [hF] at h
        obtain ⟨p1, p2⟩ := p
        simp only [Option.map_some', Option.some.injEq, Prod.mk.injEq] at h
        obtain ⟨hb, hr⟩ := h
        subst hr
        obtain ⟨ihd, ihmin⟩ := ih hF
        subst hb
        constructor
        · simp [ihd]
        · intro i hi
          cases i with
          | zero => simpa using hm
          | succ j =>
            rw [List.drop_succ_cons]
            exact ihmin j (by simpa using hi)

theorem findLit_det {lit b r : Str}
    (hmin : ∀ i < b.length, matchLit lit ((b ++ lit ++ r).drop i) = none) :
    findLit lit (b ++ lit ++ r) = some (b, r) := by
  induction b with
  | nil => simpa using findLit_head (matchLit_self lit r)
  | cons c b' ih =>
    have h0 : matchLit lit (c :: (b' ++ lit ++ r)) = none := by
      have := hmin 0 (by simp)
      simpa using this
    have hshift : ∀ i < b'.length, matchLit lit ((b' ++ lit ++ r).drop i) = none := by
      intro i hi
      have := hmin (i + 1) (by simpa using Nat.succ_lt_succ hi)
      rw [List.cons_append, List.cons_append, List.drop_succ_cons] at this
      exact this
    have : ((c :: b') ++ lit ++ r) = c :: (b' ++ lit ++ r) := by simp
    rw [this]
    simp only [findLit, h0, ih hshift, Option.map_some']

theorem findLit_isSome {lit u v s : Str} (h : s = u ++ lit ++ v) :
    (findLit lit s).isSome := by
  induction u generalizing s with
  | nil =>
    subst h
    rw [List.nil_append, findLit_head (matchLit_self lit v)]
    rfl
  | cons c u' ih =>
    subst h
    have hcons : ((c :: u') ++ lit ++ v) = c :: (u' ++ lit ++ v) := by simp
    rw [hcons]
    cases hm : matchLit lit (c :: (u' ++ lit ++ v)) with
    | some w => simp only [findLit, hm]; rfl
    | none =>
      simp only [findLit, hm, Option.isSome_map']
      exact ih rfl

theorem findTriple_spec {s b t r : Str} (h : findTriple s = some (b, t, r)) :
    s = b ++ t ++ r ∧ matchTriple (t ++ r) = some (t, r) ∧
      ∀ i < b.length, matchTriple (s.drop i) = none := by
  induction s generalizing b t r with
  | nil => simp only [findTriple] at h; exact Option.noConfusion h
  | cons c cs ih =>
    cases hm : matchTriple (c :: cs) with
    | some p =>
      obtain ⟨t', r'⟩ := p
      have hd : (c :: cs) = t' ++ r' := matchTriple_spec hm
      simp only [findTriple, hm, Option.some.injEq, Prod.mk.injEq] at h
      obtain ⟨hb, ht, hr⟩ := h
      refine ⟨?_, ?_, ?_⟩
      · rw [← hb, ← ht, ← hr]; simpa using hd
      · rw [← ht, ← hr, ← hd]; exact hm
      · rw [← hb]; intro i hi; simp at hi
    | none =>
      simp only [findTriple, hm] at h
      cases hF : findTriple cs with
      | none => rw [hF] at h; exact Option.noConfusion h
      | some p =>
        rw [hF] at h
        obtain ⟨p1, p2, p3⟩ := p
        simp only [Option.map_some', Option.some.injEq, Prod.mk.injEq] at h
        obtain ⟨hb, ht, hr⟩ := h
        obtain ⟨ihd, ihm, ihmin⟩ := ih hF
        refine ⟨?_, ?_, ?_⟩
        · rw [← hb, ← ht, ← hr]; simp [ihd]
        · rw [← ht, ← hr]; exact ihm
        · rw [← hb]
          intro i hi
          cases i with
          | zero => simpa using hm
          | succ j =>
            rw [List.drop_succ_cons]
            exact ihmin j (by simpa using hi)

theorem findTriple_det {b z t r : Str}
    (hmin : ∀ i < b.length, matchTriple ((b ++ z).drop i) = none)
    (hz : matchTriple z = some (t, r)) :
    findTriple (b ++ z) = some (b, t, r) := by
  induction b with
  | nil =>
    cases z with
    | nil => rw [matchTriple_nil] at hz; exact Option.noConfusion hz
    | cons c cs => simpa using (by simp only [findTriple, hz] :
        findTriple (c :: cs) = some ([], t, r))
  | cons c b' ih =>
    have h0 : matchTriple (c :: (b' ++ z)) = none := by
      have := hmin 0 (by simp)
      simpa using this
    have hshift : ∀ i < b'.length, matchTriple ((b' ++ z).drop i) = none := by
      intro i hi
      have := hmin (i + 1) (by simpa using Nat.succ_lt_succ hi)
      rw [List.cons_append, List.drop_succ_cons] at this
      exact this
    rw [List.cons_append]
    simp only [findTriple, h0, ih hshift, Option.map_some']

/-! ### The whole-section matcher and its leftmost occurrence -/

theorem findTriple_isSome {s u z t r : Str} (h : s = u ++ z)
    (hz : matchTriple z = some (t, r)) : (findTriple s).isSome := by
  induction u generalizing s with
  | nil =>
    rw [List.nil_append] at h
    rw [h]
    cases z with
    | nil => rw [matchTriple_nil] at hz; exact Option.noConfusion hz
    | cons c cs => simp only [findTriple, hz]; rfl
  | cons c u2 ih =>
    subst h
    rw [List.cons_append]
    cases hm : matchTriple (c :: (u2 ++ z)) with
    | some w =>
      obtain ⟨w1, w2⟩ := w
      simp only [findTriple, hm]
      rfl
    | none =>
      simp only [findTriple, hm, Option.isSome_map']
      exact ih rfl

theorem matchOpenStart_decomp {id s a s1 : Str}
    (h : matchOpenStart id s = some (a, s1)) : s = a ++ s1 := by
  obtain ⟨run, ha, hs, -⟩ := matchOpenStart_spec h
  rw [hs, ha]
  simp

theorem matchSectionAt_inv {id s o m t r : Str}
    (h : matchSectionAt id s = some (o, m, t, r)) :
    ∃ a s1 b s2, matchOpenStart id s = some (a, s1) ∧
      findLit cardGridLit s1 = some (b, s2) ∧
      findTriple s2 = some (m, t, r) ∧ o = a ++ b ++ cardGridLit := by
  cases h1 : matchOpenStart id s with
  | none => simp only [matchSectionAt, h1] at h; exact Option.noConfusion h
  | some p =>
    obtain ⟨a, s1⟩ := p
    cases h2 : findLit cardGridLit s1 with
    | none => simp only [matchSectionAt, h1, h2] at h; exact Option.noConfusion h
    | some q =>
      obtain ⟨b, s2⟩ := q
      cases h3 : findTriple s2 with
      | none =>
        simp only [matchSectionAt, h1, h2, h3] at h
        exact Option.noConfusion h
      | some w =>
        obtain ⟨m', t', r'⟩ := w
        simp only [matchSectionAt, h1, h2, h3, Option.some.injEq, Prod.mk.injEq] at h
        obtain ⟨ho, hm, ht, hr⟩ := h
        refine ⟨a, s1, b, s2, rfl, h2, ?_, ho.symm⟩
        rw [hm, ht, hr] at h3
        exact h3

theorem matchSectionAt_decomp {id s o m t r : Str}
    (h : matchSectionAt id s = some (o, m, t, r)) : s = o ++ m ++ t ++ r := by
  obtain ⟨a, s1, b, s2, h1, h2, h3, ho⟩ := matchSectionAt_inv h
  have e1 : s = a ++ s1 := matchOpenStart_decomp h1
  have e2 : s1 = b ++ cardGridLit ++ s2 := (findLit_spec h2).1
  have e3 : s2 = m ++ t ++ r := (findTriple_spec h3).1
  rw [e1, e2, e3, ho]
  simp [List.append_assoc]

theorem matchSectionAt_nil (id : Str) : matchSectionAt id [] = none := by
  have h : matchLit (secOpenLit id) [] = none := by
    have he : secOpenLit id =
        '<' :: ("div id=\"".data ++ id ++ "\" class=\"section".data) := rfl
    rw [he]
    rfl
  simp [matchSectionAt, matchOpenStart, h]

theorem findSection_spec {id s : Str} {sm : SecMatch}
    (h : findSection id s = some sm) :
    s = sm.pre ++ (sm.opn ++ sm.mid ++ sm.cls ++ sm.post) ∧
      matchSectionAt id (sm.opn ++ sm.mid ++ sm.cls ++ sm.post) =
        some (sm.opn, sm.mid, sm.cls, sm.post) ∧
      ∀ i < sm.pre.length, matchSectionAt id (s.drop i) = none := by
  induction s generalizing sm with
  | nil => simp only [findSection] at h; exact Option.noConfusion h
  | cons c cs ih =>
    cases hm : matchSectionAt id (c :: cs) with
    | some p =>
      obtain ⟨o, m, t, r⟩ := p
      simp only [findSection, hm, Option.some.injEq] at h
      have hd : (c :: cs) = o ++ m ++ t ++ r := matchSectionAt_decomp hm
      subst h
      refine ⟨by simpa [List.append_assoc] using hd, ?_, ?_⟩
      · show matchSectionAt id (o ++ m ++ t ++ r) = some (o, m, t, r)
        rw [← hd]
        exact hm
      · intro i hi; simp at hi
    | none =>
      simp only [findSection, hm] at h
      cases hF : findSection id cs with
      | none => rw [hF] at h; exact Option.noConfusion h
      | some p =>
        rw [hF] at h
        simp only [Option.map_some', Option.some.injEq] at h
        obtain ⟨ihd, ihm, ihmin⟩ := ih hF
        subst h
        refine ⟨by simpa using ihd, ihm, ?_⟩
        intro i hi
        cases i with
        | zero => simpa using hm
        | succ j =>
          rw [List.drop_succ_cons]
          exact ihmin j (by simpa using hi)

theorem findSection_det {id pre z o m t r : Str}
    (hmin : ∀ i < pre.length, matchSectionAt id ((pre ++ z).drop i) = none)
    (hz : matchSectionAt id z = some (o, m, t, r)) :
    findSection id (pre ++ z) = some ⟨pre, o, m, t, r⟩ := by
  induction pre with
  | nil =>
    cases z with
    | nil => rw [matchSectionAt_nil] at hz; exact Option.noConfusion hz
    | cons c cs =>
      simpa using (by simp only [findSection, hz] :
        findSection id (c :: cs) = some ⟨[], o, m, t, r⟩)
  | cons c pre' ih =>
    have h0 : matchSectionAt id (c :: (pre' ++ z)) = none := by
      have := hmin 0 (by simp)
      simpa using this
    have hshift : ∀ i < pre'.length, matchSectionAt id ((pre' ++ z).drop i) = none := by
      intro i hi
      have := hmin (i + 1) (by simpa using Nat.succ_lt_succ hi)
      rw [List.cons_append, List.drop_succ_cons] at this
      exact this
    rw [List.cons_append]
    simp only [findSection, h0, ih hshift, Option.map_some']

theorem replaceSection_of_find {html id cards : Str} {sm : SecMatch}
    (h : findSection id html = some sm) :
    replaceSection html id cards =
      sm.pre ++ sm.opn ++ nlPad ++ cards ++ closePad ++ sm.cls ++ sm.post := by
  simp [replaceSection, h]

theorem replaceSection_of_none {html id cards : Str}
    (h : findSection id html = none) : replaceSection html id cards = html := by
  simp [replaceSection, h]

theorem marker_of_matchSectionAt {id s o m t r : Str}
    (h : matchSectionAt id s = some (o, m, t, r)) :
    ∃ w, s = secOpenLit id ++ w := by
  obtain ⟨a, s1, b, s2, h1, -, -, -⟩ := matchSectionAt_inv h
  obtain ⟨run, -, hs, -⟩ := matchOpenStart_spec h1
  exact ⟨run ++ '"' :: '>' :: s1, hs⟩

theorem findSection_none_of_no_marker {id s : Str}
    (h : isSubstr (secOpenLit id) s = false) : findSection id s = none := by
  cases hF : findSection id s with
  | none => rfl
  | some sm =>
    exfalso
    obtain ⟨hd, hm, -⟩ := findSection_spec hF
    obtain ⟨w, hw⟩ := marker_of_matchSectionAt hm
    have : isSubstr (secOpenLit id) s = true :=
      isSubstr_iff.mpr ⟨sm.pre, w, by rw [hd, hw]; simp⟩
    rw [h] at this
    exact Bool.noConfusion this

/-! ### Support for re-running the section replacement -/

theorem matchLit_cons_ne {l1 c1 : Char} {t1 t2 : Str} (h : l1 ≠ c1) :
    matchLit (l1 :: t1) (c1 :: t2) = none := by
  simp [matchLit, h]

theorem takeWhile_length_le_self {p : Char → Bool} (l : Str) :
    (l.takeWhile p).length ≤ l.length := by
  induction l with
  | nil => simp
  | cons c cs ih =>
    by_cases hc : p c
    · rw [List.takeWhile_cons, if_pos hc]
      simpa using Nat.succ_le_succ ih
    · rw [List.takeWhile_cons, if_neg hc]
      simp

theorem takeWhile_length_le_append {p : Char → Bool} {c : Char} (x y : Str)
    (hc : p c = false) : ((x ++ c :: y).takeWhile p).length ≤ x.length := by
  induction x with
  | nil =>
    rw [List.nil_append, List.takeWhile_cons, if_neg (by simp [hc])]
  | cons b bs ih =>
    by_cases hb : p b
    · rw [List.cons_append, List.takeWhile_cons, if_pos hb]
      simpa using Nat.succ_le_succ ih
    · rw [List.cons_append, List.takeWhile_cons, if_neg hb]
      simp

theorem dropWhile_quote_pair (x : Str) :
    2 ≤ ((x ++ ['"', '>']).dropWhile notQuote).length := by
  induction x with
  | nil =>
    rw [List.nil_append, List.dropWhile_cons, if_neg (by simp [notQuote])]
    simp
  | cons b bs ih =>
    by_cases hb : notQuote b
    · rw [List.cons_append, List.dropWhile_cons, if_pos hb]
      exact ih
    · rw [List.cons_append, List.dropWhile_cons, if_neg hb]
      simp only [List.length_cons, List.length_append]
      omega

theorem matchSectionAt_none_OS {id s : Str} (h : matchOpenStart id s = none) :
    matchSectionAt id s = none := by
  simp [matchSectionAt, h]

theorem divClose_eq : divClose = '<' :: "/div>".data := rfl

/-- If `</div>` does not occur in the cards, then no position strictly inside
the inserted block `'\n' ++ cards ++ '\n            '` can start a `</div>`
(whatever text follows the block). -/
theorem no_div_in_pad {cards : Str} (hc : isSubstr divClose cards = false) :
    ∀ i < (nlPad ++ cards ++ closePad).length, ∀ z,
      matchLit divClose ((nlPad ++ cards ++ closePad).drop i ++ z) = none := by
  intro i hi z
  have hA : nlPad ++ cards ++ closePad = '\n' :: (cards ++ closePad) := by
    simp [nlPad]
  rw [hA]
  rw [hA] at hi
  have h6 : divClose.length = 6 := by decide
  have h13 : closePad.length = 13 := by decide
  cases i with
  | zero =>
    rw [List.drop_zero, List.cons_append, divClose_eq]
    exact matchLit_cons_ne (by decide)
  | succ j =>
    rw [List.drop_succ_cons]
    simp only [List.length_cons, List.length_append] at hi
    by_cases hbig : j + 6 ≤ cards.length
    · rw [List.drop_append_of_le_length (by omega)]
      cases hmm : matchLit divClose (cards.drop j ++ closePad ++ z) with
      | none => rfl
      | some w =>
        exfalso
        have hd : cards.drop j ++ (closePad ++ z) = divClose ++ w := by
          have := matchLit_some_iff.mp hmm
          rw [← this]
          simp [List.append_assoc]
        obtain ⟨w2, hw1, -⟩ := append_split hd (by
          rw [h6, List.length_drop]
          omega)
        have : isSubstr divClose cards = true := by
          refine isSubstr_iff.mpr ⟨cards.take j, w2, ?_⟩
          conv_lhs => rw [← List.take_append_drop j cards]
          rw [hw1]
          simp [List.append_assoc]
        rw [hc] at this
        exact Bool.noConfusion this
    · by_cases hsm : j ≤ cards.length
      · -- a `</div>` here would have to straddle the cards/padding boundary
        rw [List.drop_append_of_le_length hsm]
        cases hmm : matchLit divClose (cards.drop j ++ closePad ++ z) with
        | none => rfl
        | some w =>
          exfalso
          have hd : divClose ++ w = cards.drop j ++ (closePad ++ z) := by
            have := matchLit_some_iff.mp hmm
            rw [← this]
            simp [List.append_assoc]
          obtain ⟨y, hy1, hy2⟩ := append_split hd (by
            rw [h6, List.length_drop]
            omega)
          have hynil : y ≠ [] := by
            intro hy
            rw [hy, List.append_nil] at hy1
            have := congrArg List.length hy1
            rw [h6, List.length_drop] at this
            omega
          obtain ⟨c0, y2, rfl⟩ := List.exists_cons_of_ne_nil hynil
          have hc0 : c0 ∈ divClose := by
            rw [hy1]
            simp
          have hnl : '\n' = c0 := by
            have h2 : ('\n' :: (List.replicate 12 ' ' ++ z)) = c0 :: (y2 ++ w) := by
              simpa [closePad] using hy2
            injection h2 with h2a _
          rw [← hnl] at hc0
          exact absurd hc0 (by decide)
      · -- the position is inside the all-whitespace padding
        have hk : ∃ k, j = cards.length + k ∧ 1 ≤ k ∧ k ≤ 12 := by
          exact ⟨j - cards.length, by omega, by omega, by omega⟩
        obtain ⟨k, hjk, hk1, hk2⟩ := hk
        subst hjk
        rw [List.drop_append]
        have hcp : closePad.drop k = List.replicate (13 - k) ' ' := by
          have hcc : closePad = '\n' :: List.replicate 12 ' ' := rfl
          rw [hcc]
          cases k with
          | zero => omega
          | succ k2 =>
            rw [List.drop_succ_cons, List.drop_replicate]
            congr 1
            omega
        rw [hcp]
        have hrep : List.replicate (13 - k) ' ' = ' ' :: List.replicate (12 - k) ' ' := by
          have he : 13 - k = (12 - k) + 1 := by omega
          rw [he, List.replicate_succ]
        rw [hrep, List.cons_append, divClose_eq]
        exact matchLit_cons_ne (by decide)

theorem matchLit_lift_none {lit u x y : Str} (hlen : lit.length ≤ u.length)
    (h : matchLit lit (u ++ x) = none) : matchLit lit (u ++ y) = none := by
  rw [matchLit_append_left x hlen] at h
  rw [matchLit_append_left y hlen]
  cases hm : matchLit lit u with
  | none => rfl
  | some w =>
    rw [hm] at h
    exact Option.noConfusion h

/-- A maximal run of non-quote characters stops no later than any decomposition
that exhibits a quote. -/
theorem nonquote_run_le {run2 rest x y : Str}
    (heq : run2 ++ '"' :: rest = x ++ '"' :: y)
    (hrun2 : ∀ ch ∈ run2, notQuote ch = true) : run2.length ≤ x.length := by
  by_contra hlt
  push_neg at hlt
  obtain ⟨w, hw1, hw2⟩ := append_split heq (le_of_lt hlt)
  cases w with
  | nil =>
    rw [List.append_nil] at hw1
    rw [hw1] at hlt
    exact lt_irrefl _ hlt
  | cons c0 w2 =>
    have hqw : c0 = '"' := by
      rw [List.cons_append] at hw2
      injection hw2.symm with h1 _
    have hmem : c0 ∈ run2 := by
      rw [hw1]
      simp
    have := hrun2 c0 hmem
    rw [hqw] at this
    simp [notQuote] at this

theorem cardGrid_split : cardGridLit = "<div class=\"card-grid".data ++ ['"', '>'] := by
  decide

theorem cardGrid_len : cardGridLit.length = 23 := by decide

/-- The two preconditions of `matchOpenStart_append` hold for any text of the
shape `P ++ o` in which `o` is a full group-1 match of the section regex. -/
theorem openstart_conds {id P o a b run : Str}
    (ho : o = a ++ b ++ cardGridLit)
    (ha : a = secOpenLit id ++ run ++ ['"', '>']) :
    (secOpenLit id).length ≤ (P ++ o).length ∧
    2 ≤ (((P ++ o).drop (secOpenLit id).length).dropWhile notQuote).length := by
  have hlo : o.length = a.length + b.length + 23 := by
    rw [ho]
    simp [cardGrid_len]
    omega
  have hla : a.length = (secOpenLit id).length + run.length + 2 := by
    rw [ha]
    simp
    omega
  constructor
  · simp only [List.length_append]
    omega
  · have hfull : P ++ o = (P ++ a ++ b ++ "<div class=\"card-grid".data) ++ ['"', '>'] := by
      rw [ho, cardGrid_split]
      simp [List.append_assoc]
    have hle : (secOpenLit id).length ≤ (P ++ a ++ b ++ "<div class=\"card-grid".data).length := by
      have h21 : ("<div class=\"card-grid".data : Str).length = 21 := by decide
      simp only [List.length_append, h21]
      omega
    rw [hfull, List.drop_append_of_le_length hle]
    exact dropWhile_quote_pair _

/-- If the whole section regex fails at a position whose tail still contains a
complete match (shape `P ++ o ++ (mid ++ cls ++ post)`), then already the
open-pattern part fails there: a successful open-pattern match would leave the
`card-grid` literal (still inside `P ++ o`) and the closing triple (inside the
tail) available, completing a full match. -/
theorem OS_must_fail {id P o a b run m c r : Str}
    (ho : o = a ++ b ++ cardGridLit)
    (ha : a = secOpenLit id ++ run ++ ['"', '>'])
    (htr : matchTriple (c ++ r) = some (c, r))
    (hfail : matchSectionAt id (P ++ o ++ (m ++ c ++ r)) = none) :
    matchOpenStart id (P ++ o) = none := by
  cases hsome : matchOpenStart id (P ++ o) with
  | none => rfl
  | some p =>
    exfalso
    obtain ⟨a2, rest⟩ := p
    obtain ⟨hlen, hq2⟩ := openstart_conds (P := P) ho ha
    have happ := matchOpenStart_append (u := P ++ o) (m ++ c ++ r) hlen hq2
    rw [hsome] at happ
    simp only [Option.map_some'] at happ
    obtain ⟨run2, ha2, hPo, hrun2⟩ := matchOpenStart_spec hsome
    have hdecomp : P ++ o = a2 ++ rest := matchOpenStart_decomp hsome
    have habound : a2.length ≤ (P ++ a ++ b).length := by
      have hshape : P ++ o =
          (P ++ secOpenLit id ++ run) ++ '"' :: ('>' :: (b ++ cardGridLit)) := by
        rw [ho, ha]
        simp [List.append_assoc]
      have hdropA : (P ++ o).drop (secOpenLit id).length =
          run2 ++ '"' :: ('>' :: rest) := by
        rw [hPo, List.drop_left]
      have hdropB : (P ++ o).drop (secOpenLit id).length =
          ((P ++ secOpenLit id ++ run).drop (secOpenLit id).length) ++
            '"' :: ('>' :: (b ++ cardGridLit)) := by
        rw [hshape,
          List.drop_append_of_le_length (by simp only [List.length_append]; omega)]
      have heq2 : run2 ++ '"' :: ('>' :: rest) =
          ((P ++ secOpenLit id ++ run).drop (secOpenLit id).length) ++
            '"' :: ('>' :: (b ++ cardGridLit)) := by
        rw [← hdropA, hdropB]
      have hrb := nonquote_run_le heq2 hrun2
      have hxlen : ((P ++ secOpenLit id ++ run).drop (secOpenLit id).length).length =
          P.length + run.length := by
        rw [List.length_drop]
        simp only [List.length_append]
        omega
      rw [hxlen] at hrb
      have ha2len : a2.length = (secOpenLit id).length + run2.length + 2 := by
        rw [ha2]
        simp only [List.length_append]
        simp
      have halen : a.length = (secOpenLit id).length + run.length + 2 := by
        rw [ha]
        simp only [List.length_append]
        simp
      simp only [List.length_append]
      omega
    have hPo2 : P ++ o = (P ++ a ++ b) ++ cardGridLit := by
      rw [ho]
      simp [List.append_assoc]
    have hrest : rest = (P ++ a ++ b).drop a2.length ++ cardGridLit := by
      have h1 : a2 ++ rest = (P ++ a ++ b) ++ cardGridLit := by rw [← hdecomp, hPo2]
      have h2 := congrArg (List.drop a2.length) h1
      rw [List.drop_left, List.drop_append_of_le_length habound] at h2
      exact h2
    have hCGsome : (findLit cardGridLit (rest ++ (m ++ c ++ r))).isSome := by
      apply findLit_isSome (u := (P ++ a ++ b).drop a2.length) (v := m ++ c ++ r)
      rw [hrest]
    obtain ⟨q, hFL⟩ := Option.isSome_iff_exists.mp hCGsome
    obtain ⟨b2, s2x⟩ := q
    obtain ⟨hfl1, hflmin⟩ := findLit_spec hFL
    have hb2 : b2.length ≤ ((P ++ a ++ b).drop a2.length).length := by
      by_contra hgt
      push_neg at hgt
      have hmin := hflmin ((P ++ a ++ b).drop a2.length).length hgt
      have hdr : (rest ++ (m ++ c ++ r)).drop ((P ++ a ++ b).drop a2.length).length =
          cardGridLit ++ (m ++ c ++ r) := by
        rw [hrest]
        have hassoc : (P ++ a ++ b).drop a2.length ++ cardGridLit ++ (m ++ c ++ r) =
            (P ++ a ++ b).drop a2.length ++ (cardGridLit ++ (m ++ c ++ r)) := by
          rw [List.append_assoc]
        rw [hassoc, List.drop_left]
      rw [hdr, matchLit_self] at hmin
      exact Option.noConfusion hmin
    have hrestlen : rest.length = ((P ++ a ++ b).drop a2.length).length + 23 := by
      rw [hrest]
      simp [cardGrid_len]
    have hs2x : s2x = rest.drop (b2.length + cardGridLit.length) ++ (m ++ c ++ r) := by
      have h2 := congrArg (List.drop (b2 ++ cardGridLit).length) hfl1
      rw [List.drop_left] at h2
      rw [List.length_append] at h2
      rw [List.drop_append_of_le_length (by rw [hrestlen, cardGrid_len]; omega)] at h2
      exact h2.symm
    have hFT : (findTriple s2x).isSome := by
      apply findTriple_isSome
        (u := rest.drop (b2.length + cardGridLit.length) ++ m) (z := c ++ r) ?_ htr
      rw [hs2x]
      simp [List.append_assoc]
    obtain ⟨q3, hFT3⟩ := Option.isSome_iff_exists.mp hFT
    obtain ⟨mm, tt, rr⟩ := q3
    have hAll : matchSectionAt id (P ++ o ++ (m ++ c ++ r)) =
        some (a2 ++ b2 ++ cardGridLit, mm, tt, rr) := by
      simp only [matchSectionAt, happ, hFL, hFT3]
    rw [hfail] at hAll
    exact Option.noConfusion hAll

/-- Once the open pattern fails on `P ++ o`, the whole section regex fails
there whatever follows the `card-grid` literal at the end of `o`. -/
theorem sectionAt_none_any {id P o a b run : Str} (Y : Str)
    (ho : o = a ++ b ++ cardGridLit)
    (ha : a = secOpenLit id ++ run ++ ['"', '>'])
    (hOS : matchOpenStart id (P ++ o) = none) :
    matchSectionAt id (P ++ o ++ Y) = none := by
  apply matchSectionAt_none_OS
  obtain ⟨hlen, hq2⟩ := openstart_conds (P := P) ho ha
  have := matchOpenStart_append (u := P ++ o) Y hlen hq2
  rw [hOS] at this
  simpa using this

/-- Re-running the matcher on the spliced section succeeds and captures
exactly the inserted block as the middle group, when the inserted cards
contain no `</div>`. -/
theorem sectionAt_reinsert {id z o m c r cards : Str}
    (hz : matchSectionAt id z = some (o, m, c, r))
    (hc : isSubstr divClose cards = false) :
    matchSectionAt id (o ++ (nlPad ++ cards ++ closePad) ++ c ++ r) =
      some (o, nlPad ++ cards ++ closePad, c, r) := by
  obtain ⟨a, s1, b, s2, h1, h2, h3, ho⟩ := matchSectionAt_inv hz
  obtain ⟨run, ha, hsz, hrun⟩ := matchOpenStart_spec h1
  obtain ⟨hs1, hminCG⟩ := findLit_spec h2
  obtain ⟨hs2, htr, hminTr⟩ := findTriple_spec h3
  have e0 : o ++ (nlPad ++ cards ++ closePad) ++ c ++ r =
      secOpenLit id ++
        (run ++ '"' :: '>' ::
          (b ++ cardGridLit ++ (nlPad ++ cards ++ closePad ++ c ++ r))) := by
    rw [ho, ha]
    simp [List.append_assoc]
  have h1' : matchOpenStart id (o ++ (nlPad ++ cards ++ closePad) ++ c ++ r) =
      some (a, b ++ cardGridLit ++ (nlPad ++ cards ++ closePad ++ c ++ r)) := by
    rw [e0, matchOpenStart_canon id run _ hrun, ← ha]
  have h2' : findLit cardGridLit
      (b ++ cardGridLit ++ (nlPad ++ cards ++ closePad ++ c ++ r)) =
      some (b, nlPad ++ cards ++ closePad ++ c ++ r) := by
    apply findLit_det
    intro i hilt
    have hs1d : s1.drop i = b.drop i ++ cardGridLit ++ s2 := by
      rw [hs1, List.drop_append_of_le_length (by simp only [List.length_append]; omega),
        List.drop_append_of_le_length (Nat.le_of_lt hilt)]
    have hnone : matchLit cardGridLit ((b.drop i ++ cardGridLit) ++ s2) = none := by
      have := hminCG i hilt
      rw [hs1d] at this
      exact this
    have hlift := matchLit_lift_none (y := nlPad ++ cards ++ closePad ++ c ++ r)
      (by simp only [List.length_append]; omega) hnone
    rw [List.drop_append_of_le_length (by simp only [List.length_append]; omega),
      List.drop_append_of_le_length (Nat.le_of_lt hilt)]
    exact hlift
  have h3' : findTriple (nlPad ++ cards ++ closePad ++ c ++ r) =
      some (nlPad ++ cards ++ closePad, c, r) := by
    have hbase : findTriple ((nlPad ++ cards ++ closePad) ++ (c ++ r)) =
        some (nlPad ++ cards ++ closePad, c, r) := by
      apply findTriple_det
      · intro i hiA
        apply matchTriple_none_head
        rw [List.drop_append_of_le_length (Nat.le_of_lt hiA)]
        exact no_div_in_pad hc i hiA (c ++ r)
      · exact htr
    rw [← List.append_assoc] at hbase
    exact hbase
  have hfinal : matchSectionAt id (o ++ (nlPad ++ cards ++ closePad) ++ c ++ r) =
      some (a ++ b ++ cardGridLit, nlPad ++ cards ++ closePad, c, r) := by
    simp only [matchSectionAt, h1', h2', h3']
  rw [hfinal, ← ho]

/-- No position strictly before the original leftmost match can match after
the splice: the failure at each such position transfers from the original
document to the spliced one. -/
theorem minimality_transfer {id pre o m c r : Str} (cards : Str)
    (hz : matchSectionAt id (o ++ m ++ c ++ r) = some (o, m, c, r))
    (hminD : ∀ i < pre.length,
      matchSectionAt id ((pre ++ (o ++ m ++ c ++ r)).drop i) = none) :
    ∀ i < pre.length,
      matchSectionAt id
        ((pre ++ (o ++ (nlPad ++ cards ++ closePad) ++ c ++ r)).drop i) = none := by
  obtain ⟨a, s1, b, s2, h1, h2, h3, ho⟩ := matchSectionAt_inv hz
  obtain ⟨run, ha, -, -⟩ := matchOpenStart_spec h1
  obtain ⟨-, htr, -⟩ := findTriple_spec h3
  intro i hi
  have hle : i ≤ pre.length := Nat.le_of_lt hi
  rw [List.drop_append_of_le_length hle]
  have eY : pre.drop i ++ (o ++ (nlPad ++ cards ++ closePad) ++ c ++ r) =
      pre.drop i ++ o ++ ((nlPad ++ cards ++ closePad) ++ c ++ r) := by
    simp [List.append_assoc]
  rw [eY]
  apply sectionAt_none_any _ ho ha
  apply OS_must_fail ho ha htr
  have hD := hminD i hi
  rw [List.drop_append_of_le_length hle] at hD
  have eX : pre.drop i ++ (o ++ m ++ c ++ r) =
      pre.drop i ++ o ++ (m ++ c ++ r) := by
    simp [List.append_assoc]
  rw [eX] at hD
  exact hD

/-- Claim C1 (amended): for every document, section id, and card HTML in
which the substring `</div>` does not occur, section replacement is
idempotent: running `replaceSection` twice with the same cards yields the
same document as running it once.  (As literally stated the claim is false:
when the cards contain `</div>` — as every card built by `buildCards` does —
the non-greedy close pattern matches inside the freshly inserted cards on
the second run, so the second run splices the cards in again.) -/
theorem replaceSection_idem_of_no_divClose (html id cards : Str)
    (hc : isSubstr divClose cards = false) :
    replaceSection (replaceSection html id cards) id cards =
      replaceSection html id cards := by
  cases hF : findSection id html with
  | none => rw [replaceSection_of_none hF, replaceSection_of_none hF]
  | some sm =>
    obtain ⟨hdec, hmatch, hmin⟩ := findSection_spec hF
    have hrepl : replaceSection html id cards =
        sm.pre ++ sm.opn ++ nlPad ++ cards ++ closePad ++ sm.cls ++ sm.post :=
      replaceSection_of_find hF
    have hminD : ∀ i < sm.pre.length,
        matchSectionAt id
          ((sm.pre ++ (sm.opn ++ sm.mid ++ sm.cls ++ sm.post)).drop i) = none := by
      intro i hi
      have hx := hmin i hi
      rw [hdec] at hx
      exact hx
    have hnewmin := minimality_transfer cards hmatch hminD
    have hnewAt := sectionAt_reinsert hmatch hc
    have hFS : findSection id
        (sm.pre ++ (sm.opn ++ (nlPad ++ cards ++ closePad) ++ sm.cls ++ sm.post)) =
        some ⟨sm.pre, sm.opn, nlPad ++ cards ++ closePad, sm.cls, sm.post⟩ :=
      findSection_det hnewmin hnewAt
    have hR1 : replaceSection html id cards =
        sm.pre ++ (sm.opn ++ (nlPad ++ cards ++ closePad) ++ sm.cls ++ sm.post) := by
      rw [hrepl]
      simp [List.append_assoc]
    rw [hR1, replaceSection_of_find hFS]
    simp [List.append_assoc]

/-! ### Claims about replaceSection -/

/-- Claim C1, counterexample: on a document whose `us` section matches, and
with card HTML that contains the closing triple (as every rendered card
does), running `replaceSection` twice does not equal running it once: the
second run matches the triple inside the freshly inserted cards and splices
the cards in again. -/
theorem c1_counterexample :
    replaceSection (replaceSection docC1 "us".data cardsC1) "us".data cardsC1 ≠
      replaceSection docC1 "us".data cardsC1 := by
  decide

/-- Claim C1 witness: the amended idempotence at a concrete document and
concrete `</div>`-free cards. -/
theorem c1_witness :
    isSubstr divClose "X".data = false ∧
    replaceSection (replaceSection docC1 "us".data "X".data) "us".data "X".data =
      replaceSection docC1 "us".data "X".data :=
  ⟨by decide, replaceSection_idem_of_no_divClose docC1 "us".data "X".data (by decide)⟩

/-- Claim C2: if the section pattern for the given id does not match the
document — in particular whenever the section marker
`<div id="ID" class="section` is absent — `replaceSection` returns the input
document exactly, and no error is raised (the function is total). -/
theorem c2_no_match_identity (html id cards : Str) :
    (findSection id html = none → replaceSection html id cards = html) ∧
    (isSubstr (secOpenLit id) html = false → replaceSection html id cards = html) :=
  ⟨replaceSection_of_none,
   fun h => replaceSection_of_none (findSection_none_of_no_marker h)⟩

/-- Claim C2 witness: a concrete document without the `us` marker is
returned byte-for-byte. -/
theorem c2_witness :
    isSubstr (secOpenLit "us".data) "<p>hello</p>".data = false ∧
    replaceSection "<p>hello</p>".data "us".data "C".data = "<p>hello</p>".data :=
  ⟨by decide,
   (c2_no_match_identity "<p>hello</p>".data "us".data "C".data).2 (by decide)⟩

/-- Claim C9: `replaceSection` modifies at most one region.  The document
splits as `pre ++ opn ++ mid ++ cls ++ post` around the leftmost match; the
result keeps `pre`, `opn`, `cls` and `post` — every character before and
after the replaced middle — and no position strictly before the match start
matches the section pattern (so when the pattern matches more than once,
only the first match is replaced). -/
theorem c9_first_match_frame (html id cards : Str) (sm : SecMatch)
    (h : findSection id html = some sm) :
    html = sm.pre ++ (sm.opn ++ sm.mid ++ sm.cls ++ sm.post) ∧
    replaceSection html id cards =
      sm.pre ++ sm.opn ++ nlPad ++ cards ++ closePad ++ sm.cls ++ sm.post ∧
    (∀ i < sm.pre.length, matchSectionAt id (html.drop i) = none) := by
  obtain ⟨h1, -, h3⟩ := findSection_spec h
  exact ⟨h1, replaceSection_of_find h, h3⟩

/-- Claim C9 witness: the frame property at a concrete document with text on
both sides of the section. -/
theorem c9_witness :
    docC9 = smC9.pre ++ (smC9.opn ++ smC9.mid ++ smC9.cls ++ smC9.post) ∧
    replaceSection docC9 "us".data "C".data =
      smC9.pre ++ smC9.opn ++ nlPad ++ "C".data ++ closePad ++ smC9.cls ++ smC9.post ∧
    (∀ i < smC9.pre.length, matchSectionAt "us".data (docC9.drop i) = none) :=
  c9_first_match_frame docC9 "us".data "C".data smC9 (by decide)

/-! ### Claims about card rendering and the news fetch -/

theorem escQuot_length_ge (s : Str) : s.length ≤ (escQuot s).length := by
  induction s with
  | nil => simp [escQuot]
  | cons c cs ih =>
    by_cases hc : c = '"'
    · have h6 : ("&quot;".data : Str).length = 6 := by decide
      simp only [escQuot, if_pos hc, List.length_append, List.length_cons, h6]
      omega
    · simp only [escQuot, if_neg hc, List.length_cons]
      omega

/-- Claim C3 (amended): escaping precedes truncation in the card title, so
for every article whose title is longer than 80 characters the rendered
title field is the quote-escaped title cut to exactly 80 characters — its
length is exactly 80, with no escaping expansion surviving in the length. -/
theorem c3_title_truncation (a : Article) (h : 80 < (jsOr a.title []).length) :
    cardTitle a = (escQuot (jsOr a.title [])).take 80 ∧
    (cardTitle a).length = 80 := by
  refine ⟨rfl, ?_⟩
  rw [cardTitle, List.length_take]
  have := escQuot_length_ge (jsOr a.title [])
  omega

/-- Claim C3, counterexample: for a title of length 82 starting with a
double quote, the rendered field has length 80, not 80 plus the escaping
expansion (the spec-order field — truncate first, then escape — would have
length 85), so the two orders disagree. -/
theorem c3_counterexample :
    80 < (jsOr artC3.title []).length ∧
    (cardTitle artC3).length = 80 ∧
    (specTitleField artC3).length = 85 ∧
    cardTitle artC3 ≠ specTitleField artC3 := by
  decide

/-- Claim C3 witness: the amended statement at the concrete article. -/
theorem c3_witness :
    80 < (jsOr artC3.title []).length ∧ (cardTitle artC3).length = 80 :=
  ⟨by decide, (c3_title_truncation artC3 (by decide)).2⟩

/-- Claim C5 (amended): fetchNews resolves with the empty sequence when no
API credential is configured and when the provider reports a non-success
status; a payload that fails to parse instead rejects the promise (it does
not resolve empty). -/
theorem c5_empty_cases (apiKey : Str) (parsed : Option NewsResponse) :
    (apiKey = [] → fetchNewsOutcome apiKey parsed = .resolved []) ∧
    (∀ j, parsed = some j → j.respStatus ≠ "ok".data →
      fetchNewsOutcome apiKey parsed = .resolved []) := by
  constructor
  · intro h
    simp [fetchNewsOutcome, h]
  · intro j hj hst
    subst hj
    by_cases hk : apiKey = []
    · simp [fetchNewsOutcome, hk]
    · simp [fetchNewsOutcome, hk, hst]

/-- Claim C5, counterexample: with a credential configured and a
non-parseable body, fetchNews does not resolve with the empty sequence —
it rejects. -/
theorem c5_counterexample :
    fetchNewsOutcome "k".data none ≠ FetchResult.resolved [] ∧
    fetchNewsOutcome "k".data none = FetchResult.rejected := by
  decide

/-- Claim C5 witness: both resolving-empty cases at concrete inputs. -/
theorem c5_witness :
    fetchNewsOutcome [] none = FetchResult.resolved [] ∧
    fetchNewsOutcome "k".data (some respBad) = FetchResult.resolved [] :=
  ⟨(c5_empty_cases [] none).1 rfl,
   (c5_empty_cases "k".data (some respBad)).2 respBad rfl (by decide)⟩

/-- Claim C6 (amended): the request caps the page size at 5 — the pair
`pageSize=5` is among the query parameters — and fetchNews resolves with
either the empty list or exactly the provider's articles array, so the
result has at most 5 articles whenever the provider honors the page size;
the script itself does not truncate an overfull response. -/
theorem c6_page_size (q f apiKey : Str) (j : NewsResponse) (l : List Article) :
    ("pageSize".data, "5".data) ∈ requestParams q f apiKey ∧
    (fetchNewsOutcome apiKey (some j) = .resolved l →
      l = [] ∨ l = j.articles.getD []) ∧
    ((j.articles.getD []).length ≤ 5 →
      fetchNewsOutcome apiKey (some j) = .resolved l → l.length ≤ 5) := by
  refine ⟨by simp [requestParams], ?_, ?_⟩
  · intro h
    by_cases hk : apiKey = []
    · left
      simp only [fetchNewsOutcome, if_pos hk] at h
      injection h with h1
      exact h1.symm
    · by_cases hst : j.respStatus = "ok".data
      · right
        simp only [fetchNewsOutcome, if_neg hk, if_pos hst] at h
        injection h with h1
        exact h1.symm
      · left
        simp only [fetchNewsOutcome, if_neg hk, if_neg hst] at h
        injection h with h1
        exact h1.symm
  · intro hlen h
    by_cases hk : apiKey = []
    · simp only [fetchNewsOutcome, if_pos hk] at h
      injection h with h1
      rw [← h1]
      simp
    · by_cases hst : j.respStatus = "ok".data
      · simp only [fetchNewsOutcome, if_neg hk, if_pos hst] at h
        injection h with h1
        rw [← h1]
        exact hlen
      · simp only [fetchNewsOutcome, if_neg hk, if_neg hst] at h
        injection h with h1
        rw [← h1]
        simp

/-- Claim C6, counterexample: the script does not truncate — a provider
response carrying six articles is resolved with all six, so "at most 5 for
every provider response" fails. -/
theorem c6_counterexample :
    fetchNewsOutcome "k".data (some respC6) =
      FetchResult.resolved (List.replicate 6 blankArticle) ∧
    5 < (List.replicate 6 blankArticle).length := by
  decide

/-- Claim C6 witness: the pageSize parameter and the bound at a concrete
two-article response. -/
theorem c6_witness :
    ("pageSize".data, "5".data) ∈ requestParams "q".data "2026-01-01".data "k".data ∧
    (List.replicate 2 blankArticle).length ≤ 5 :=
  ⟨(c6_page_size "q".data "2026-01-01".data "k".data respC6w
      (List.replicate 2 blankArticle)).1,
   (c6_page_size "q".data "2026-01-01".data "k".data respC6w
      (List.replicate 2 blankArticle)).2.2 (by decide) (by decide)⟩

/-- Claim C4: with a credential configured, a non-parseable response body
makes that fetchNews call reject rather than resolve; the rejection
propagates through the joined pair of fetches (`Promise.all` fails when
either side does), the run aborts in the top-level catch, and the HTML
document on disk is left unchanged. -/
theorem c4_malformed_rejects (apiKey : Str) (hk : apiKey ≠ [])
    (fmt : Option Str → Str) (today : Str) (other : FetchResult) (html : Str) :
    fetchNewsOutcome apiKey none = .rejected ∧
    mainRun fmt today (fetchNewsOutcome apiKey none) other html = none ∧
    mainRun fmt today other (fetchNewsOutcome apiKey none) html = none ∧
    diskAfter fmt today (fetchNewsOutcome apiKey none) other html = html ∧
    diskAfter fmt today other (fetchNewsOutcome apiKey none) html = html := by
  have h1 : fetchNewsOutcome apiKey none = .rejected := by
    simp [fetchNewsOutcome, hk]
  have hp1 : promiseAll2 FetchResult.rejected other = none := by
    cases other <;> rfl
  have hp2 : promiseAll2 other FetchResult.rejected = none := by
    cases other <;> rfl
  refine ⟨h1, ?_, ?_, ?_, ?_⟩ <;> rw [h1] <;>
    simp [mainRun, diskAfter, hp1, hp2]

/-- Claim C4 witness: the rejection and the unchanged disk at concrete
inputs. -/
theorem c4_witness :
    fetchNewsOutcome "k".data none = FetchResult.rejected ∧
    diskAfter (fun _ => "D".data) "T".data (fetchNewsOutcome "k".data none)
      (FetchResult.resolved []) "H".data = "H".data := by
  have h := c4_malformed_rejects "k".data (by decide) (fun _ => "D".data)
    "T".data (FetchResult.resolved []) "H".data
  exact ⟨h.1, h.2.2.2.1⟩

/-! ### Claim about the timestamp update -/

theorem matchUpdAt_nil : matchUpdAt [] = none := by
  have h : matchLit updLabel [] = none := by
    rw [show updLabel = 'L' :: "ast Updated: ".data from rfl]
    rfl
  simp [matchUpdAt, h]

theorem matchUpdAt_inv {s run rest : Str} (h : matchUpdAt s = some (run, rest)) :
    s = updLabel ++ run ++ rest ∧ run ≠ [] ∧ (∀ ch ∈ run, ch ≠ '<') ∧
      (rest = [] ∨ rest.head? = some '<') := by
  cases hm : matchLit updLabel s with
  | none =>
    simp only [matchUpdAt, hm] at h
    exact Option.noConfusion h
  | some s1 =>
    by_cases hemp : s1.takeWhile notLt = []
    · simp only [matchUpdAt, hm, if_pos hemp] at h
      exact Option.noConfusion h
    · simp only [matchUpdAt, hm, if_neg hemp, Option.some.injEq, Prod.mk.injEq] at h
      obtain ⟨hr, hrest⟩ := h
      refine ⟨?_, ?_, ?_, ?_⟩
      · rw [matchLit_some_iff.mp hm]
        conv_lhs => rw [← List.takeWhile_append_dropWhile notLt s1]
        rw [hr, hrest, List.append_assoc]
      · intro hx
        exact hemp (by rw [hr, hx])
      · intro ch hch
        rw [← hr] at hch
        have := takeWhile_all (p := notLt) s1 ch hch
        simpa [notLt] using this
      · rcases hdw : s1.dropWhile notLt with _ | ⟨c0, t0⟩
        · left
          rw [← hrest, hdw]
        · right
          rw [← hrest, hdw]
          have hc0 : c0 = '<' := by
            have := dropWhile_head_false hdw
            simpa [notLt] using this
          rw [hc0]
          rfl

theorem findUpd_spec {s : Str} {pre run rest : Str}
    (h : findUpd s = some (pre, run, rest)) :
    s = pre ++ (updLabel ++ run ++ rest) ∧
      matchUpdAt (updLabel ++ run ++ rest) = some (run, rest) ∧
      ∀ i < pre.length, matchUpdAt (s.drop i) = none := by
  induction s generalizing pre run rest with
  | nil =>
    simp only [findUpd] at h
    exact Option.noConfusion h
  | cons c cs ih =>
    cases hm : matchUpdAt (c :: cs) with
    | some p =>
      obtain ⟨run', rest'⟩ := p
      have hd := (matchUpdAt_inv hm).1
      simp only [findUpd, hm, Option.some.injEq, Prod.mk.injEq] at h
      obtain ⟨hb, ht, hr⟩ := h
      refine ⟨?_, ?_, ?_⟩
      · rw [← hb, ← ht, ← hr]
        simpa [List.append_assoc] using hd
      · rw [← ht, ← hr, ← hd]
        exact hm
      · rw [← hb]
        intro i hi
        simp at hi
    | none =>
      simp only [findUpd, hm] at h
      cases hF : findUpd cs with
      | none =>
        rw [hF] at h
        exact Option.noConfusion h
      | some p =>
        rw [hF] at h
        obtain ⟨p1, p2, p3⟩ := p
        simp only [Option.map_some', Option.some.injEq, Prod.mk.injEq] at h
        obtain ⟨hb, ht, hr⟩ := h
        obtain ⟨ihd, ihAt, ihmin⟩ := ih hF
        refine ⟨?_, ?_, ?_⟩
        · rw [← hb, ← ht, ← hr]
          simp [ihd]
        · rw [← ht, ← hr]
          exact ihAt
        · rw [← hb]
          intro i hi
          cases i with
          | zero => simpa using hm
          | succ j =>
            rw [List.drop_succ_cons]
            exact ihmin j (by simpa using hi)

theorem findUpd_none_of_no_label {s : Str} (h : isSubstr updLabel s = false) :
    findUpd s = none := by
  cases hF : findUpd s with
  | none => rfl
  | some p =>
    exfalso
    obtain ⟨p1, p2, p3⟩ := p
    obtain ⟨hd, -, -⟩ := findUpd_spec hF
    have : isSubstr updLabel s = true :=
      isSubstr_iff.mpr ⟨p1, p2 ++ p3, by rw [hd]; simp [List.append_assoc]⟩
    rw [h] at this
    exact Bool.noConfusion this

theorem findUpd_isSome {s u v : Str} (h : s = u ++ v)
    (hv : (matchUpdAt v).isSome) : (findUpd s).isSome := by
  induction u generalizing s with
  | nil =>
    rw [List.nil_append] at h
    rw [h]
    cases v with
    | nil =>
      rw [matchUpdAt_nil] at hv
      exact Bool.noConfusion hv
    | cons c cs =>
      cases hm : matchUpdAt (c :: cs) with
      | none =>
        rw [hm] at hv
        exact Bool.noConfusion hv
      | some p =>
        obtain ⟨p1, p2⟩ := p
        simp only [findUpd, hm]
        rfl
  | cons c u2 ih =>
    subst h
    rw [List.cons_append]
    cases hm : matchUpdAt (c :: (u2 ++ v)) with
    | some p =>
      obtain ⟨p1, p2⟩ := p
      simp only [findUpd, hm]
      rfl
    | none =>
      simp only [findUpd, hm, Option.isSome_map']
      exact ih rfl

/-- Claim C7: for every document containing `Last Updated: January 1, 2020`
the timestamp update (with today's formatted date passed in) replaces the
first occurrence of the label followed by a maximal nonempty run of
characters up to the next tag with the label and today's date, changing no
other text; a document without the label is returned unchanged. -/
theorem c7_last_updated (html today : Str) :
    (isSubstr "Last Updated: January 1, 2020".data html = true →
      ∃ pre run rest, html = pre ++ (updLabel ++ run ++ rest) ∧
        updateLastModified today html = pre ++ updLabel ++ today ++ rest ∧
        run ≠ [] ∧ (∀ ch ∈ run, ch ≠ '<') ∧
        (rest = [] ∨ rest.head? = some '<') ∧
        (∀ i < pre.length, matchUpdAt (html.drop i) = none)) ∧
    (isSubstr updLabel html = false → updateLastModified today html = html) := by
  constructor
  · intro hsub
    obtain ⟨u, v, huv⟩ := isSubstr_iff.mp hsub
    have hvSome : (matchUpdAt (updLabel ++ ("January 1, 2020".data ++ v))).isSome := by
      simp only [matchUpdAt, matchLit_self]
      have hJ : ("January 1, 2020".data ++ v : Str) =
          'J' :: ("anuary 1, 2020".data ++ v) := rfl
      have htw : ("January 1, 2020".data ++ v).takeWhile notLt =
          'J' :: ("anuary 1, 2020".data ++ v).takeWhile notLt := by
        rw [hJ, List.takeWhile_cons, if_pos (by decide)]
      rw [if_neg (by rw [htw]; simp)]
      rfl
    have hFS : (findUpd html).isSome := by
      refine findUpd_isSome (u := u) ?_ hvSome
      rw [huv,
        show ("Last Updated: January 1, 2020".data : Str) =
          updLabel ++ "January 1, 2020".data by decide]
      simp [List.append_assoc]
    obtain ⟨p, hF⟩ := Option.isSome_iff_exists.mp hFS
    obtain ⟨pre, run, rest⟩ := p
    obtain ⟨hd, hAt, hmin⟩ := findUpd_spec hF
    obtain ⟨-, hrun, hmem, hhead⟩ := matchUpdAt_inv hAt
    refine ⟨pre, run, rest, hd, ?_, hrun, hmem, hhead, hmin⟩
    simp [updateLastModified, hF]
  · intro h
    simp [updateLastModified, findUpd_none_of_no_label h]

/-- Claim C7 witness: a concrete document without the label is unchanged. -/
theorem c7_witness :
    isSubstr updLabel "<p>hi</p>".data = false ∧
    updateLastModified "October 11, 2026".data "<p>hi</p>".data = "<p>hi</p>".data :=
  ⟨by decide,
   (c7_last_updated "<p>hi</p>".data "October 11, 2026".data).2 (by decide)⟩

/-! ### Claim about the static file server -/

theorem extname_append (dir l : Str)
    (h : l.reverse.dropWhile (fun c => c ≠ '/') ≠ []) :
    extname (dir ++ l) = extname l := by
  unfold extname
  rw [List.reverse_append, (takeWhile_append_stop dir.reverse h).1]

theorem handleRequest_some {fsys : Str → Option Str} {dir url fp d : Str}
    (hfp : (if url = "/".data then "/index.html".data else url) = fp)
    (hfs : fsys (dir ++ fp) = some d) :
    handleRequest fsys dir url =
      ⟨200, if extname (dir ++ fp) = ".css".data then cssCT
            else if extname (dir ++ fp) = ".js".data then jsCT else htmlCT, d⟩ := by
  simp only [handleRequest, hfp, hfs]

theorem handleRequest_none {fsys : Str → Option Str} {dir url fp : Str}
    (hfp : (if url = "/".data then "/index.html".data else url) = fp)
    (hfs : fsys (dir ++ fp) = none) :
    handleRequest fsys dir url = ⟨404, htmlCT, fallbackBody⟩ := by
  simp only [handleRequest, hfp, hfs]

/-- Claim C8: the handler rewrites `/` to `/index.html`, so those two
requests get identical responses (same body bytes) and a text/html content
type whether the read succeeds or 404s; `/styles.css` is served with
text/css when its read succeeds; and any request whose file read fails is
answered 404 with the fixed fallback body, regardless of the error cause
(all causes are collapsed into the read failure). -/
theorem c8_static_server (fsys : Str → Option Str) (dir : Str) :
    handleRequest fsys dir "/".data = handleRequest fsys dir "/index.html".data ∧
    (handleRequest fsys dir "/".data).contentType = htmlCT ∧
    (∀ d, fsys (dir ++ "/styles.css".data) = some d →
      handleRequest fsys dir "/styles.css".data = ⟨200, cssCT, d⟩) ∧
    (∀ url, fsys (dir ++ (if url = "/".data then "/index.html".data else url)) = none →
      handleRequest fsys dir url = ⟨404, htmlCT, fallbackBody⟩) := by
  have hne : ¬(("/index.html".data : Str) = "/".data) := by decide
  have hextIdx : extname (dir ++ "/index.html".data) = ".html".data := by
    rw [extname_append dir _ (by decide)]
    decide
  have hextCss : extname (dir ++ "/styles.css".data) = ".css".data := by
    rw [extname_append dir _ (by decide)]
    decide
  have hslash : handleRequest fsys dir "/".data =
      handleRequest fsys dir "/index.html".data := by
    simp [handleRequest, hne]
  refine ⟨hslash, ?_, ?_, ?_⟩
  · rw [hslash]
    cases hfs : fsys (dir ++ "/index.html".data) with
    | none => rw [handleRequest_none (if_neg hne) hfs]
    | some d =>
      rw [handleRequest_some (if_neg hne) hfs, hextIdx]
      rw [if_neg (by decide), if_neg (by decide)]
  · intro d hfs
    have hnecss : ¬(("/styles.css".data : Str) = "/".data) := by decide
    rw [handleRequest_some (if_neg hnecss) hfs, hextCss, if_pos rfl]
  · intro url hfs
    exact handleRequest_none rfl hfs

/-- Claim C8 witness: the three scenarios on a concrete little filesystem. -/
theorem c8_witness :
    handleRequest fsC8 [] "/".data = handleRequest fsC8 [] "/index.html".data ∧
    (handleRequest fsC8 [] "/".data).contentType = htmlCT ∧
    handleRequest fsC8 [] "/styles.css".data = ⟨200, cssCT, "CSS".data⟩ ∧
    handleRequest fsC8 [] "/missing.png".data = ⟨404, htmlCT, fallbackBody⟩ := by
  have h := c8_static_server fsC8 []
  exact ⟨h.1, h.2.1, h.2.2.1 "CSS".data (by decide), h.2.2.2 "/missing.png".data (by decide)⟩

/-! ### Claim about verbatim insertion in the card template -/

theorem seg4_split : cardSeg4 = seg4head ++ "<a href=\"".data := by decide

theorem seg5_split :
    cardSeg5 = "\" class=\"read-more\" target=\"_blank\">Read More</a>".data ++ seg5tail := by
  decide

theorem seg1_split : cardSeg1 = seg1head ++ "<div class=\"card-meta\">".data := by decide

theorem seg2_splitA : cardSeg2 = "</div>".data ++ seg2tail := by decide

theorem seg2_splitB : cardSeg2 = seg2head ++ "<h3 class=\"card-title\">".data := by decide

theorem seg3_split : cardSeg3 = "</h3>".data ++ seg3tail := by decide

/-- Claim C10: double-quote escaping is applied only to the title and
description.  The article's url is inserted verbatim inside the
`href` attribute of the rendered card — so a `"` in the url appears there
unescaped — and the source name is likewise inserted verbatim in the
card-meta line, while the title field carries the escaped-and-truncated
text `cardTitle`. -/
theorem c10_verbatim_url (fmt : Option Str → Str) (emoji : Str) (a : Article) :
    (∃ p s, buildCard fmt emoji a =
      p ++ ("<a href=\"".data ++ jsOr a.url "#".data ++
        "\" class=\"read-more\" target=\"_blank\">Read More</a>".data) ++ s) ∧
    (∃ p s, buildCard fmt emoji a =
      p ++ ("<div class=\"card-meta\">".data ++ fmt a.publishedAt ++ cardSegDot ++
        jsOr a.sourceName "News".data ++ "</div>".data) ++ s) ∧
    (∃ p s, buildCard fmt emoji a =
      p ++ ("<h3 class=\"card-title\">".data ++ cardTitle a ++ "</h3>".data) ++ s) := by
  refine ⟨⟨cardSeg0 ++ emoji ++ cardSeg1 ++ fmt a.publishedAt ++ cardSegDot ++
      jsOr a.sourceName "News".data ++ cardSeg2 ++ cardTitle a ++ cardSeg3 ++
      cardDesc a ++ seg4head, seg5tail, ?_⟩,
    ⟨cardSeg0 ++ emoji ++ seg1head,
      seg2tail ++ cardTitle a ++ cardSeg3 ++ cardDesc a ++ cardSeg4 ++
        jsOr a.url "#".data ++ cardSeg5, ?_⟩,
    ⟨cardSeg0 ++ emoji ++ cardSeg1 ++ fmt a.publishedAt ++ cardSegDot ++
      jsOr a.sourceName "News".data ++ seg2head,
      seg3tail ++ cardDesc a ++ cardSeg4 ++ jsOr a.url "#".data ++ cardSeg5, ?_⟩⟩
  · simp only [buildCard, seg4_split, seg5_split]
    simp [List.append_assoc]
  · simp only [buildCard, seg1_split, seg2_splitA]
    simp [List.append_assoc]
  · simp only [buildCard, seg2_splitB, seg3_split]
    simp [List.append_assoc]
